import Mathlib

/-!
Verification development for the airport-code enrichment pipeline.

The Python source is shallowly embedded: strings are Lean `String`s
manipulated through character lists (mirroring Python `str` methods),
Python dicts are insertion-ordered association lists, Python sets are
insertion-ordered duplicate-free lists, and the external LLM calls are
an oracle `respond : String → Nat → Outcome` giving the outcome of
attempting a given model at a given per-model attempt index.
-/

namespace Airport

/-! ## Python string primitives (char-list models of `str` methods) -/

/-- Model of Python `str.lower()` (ASCII case folding). -/
def pyLower (s : String) : String := String.mk (s.toList.map Char.toLower)

/-- Model of Python `str.upper()` (ASCII case folding). -/
def pyUpper (s : String) : String := String.mk (s.toList.map Char.toUpper)

/-- Drop leading whitespace characters. -/
def dropWs (cs : List Char) : List Char := cs.dropWhile Char.isWhitespace

/-- Strip whitespace from both ends of a character list. -/
def stripChars (cs : List Char) : List Char := (dropWs ((dropWs cs).reverse)).reverse

/-- Model of Python `str.strip()`. -/
def pyStrip (s : String) : String := String.mk (stripChars s.toList)

/-- Substring test on character lists (model of Python `in` on strings). -/
def hasSubstr (pat : List Char) : List Char → Bool
  | [] => pat.isEmpty
  | c :: cs => pat.isPrefixOf (c :: cs) || hasSubstr pat cs

/-- Model of Python `pat in s`. -/
def pyContains (s pat : String) : Bool := hasSubstr pat.toList s.toList

/-- Model of Python `s.startswith(pre)`. -/
def pyStartsWith (s pre : String) : Bool := pre.toList.isPrefixOf s.toList

/-- Index of the first occurrence of a character (model of `str.index`);
length of the list when absent. -/
def idxOfChar (c : Char) : List Char → Nat
  | [] => 0
  | x :: xs => if x = c then 0 else idxOfChar c xs + 1

/-- Model of Python `s.split(sep)` for a one-character separator. -/
def pySplitChar (sep : Char) (s : String) : List String :=
  (s.toList.foldr
    (fun c acc =>
      match acc with
      | [] => [[c]]
      | g :: gs => if c = sep then [] :: g :: gs else (c :: g) :: gs)
    [[]]).map String.mk

/-! ## Python dict and set primitives -/

/-- Lookup in an insertion-ordered association list (Python dict access). -/
def dictFind {α : Type} (d : List (String × α)) (k : String) : Option α :=
  match d with
  | [] => none
  | (k', v) :: rest => if k' = k then some v else dictFind rest k

/-- Model of Python `d.get(k, v₀)`. -/
def dictGet {α : Type} (d : List (String × α)) (k : String) (v₀ : α) : α :=
  (dictFind d k).getD v₀

/-- Model of Python `k in d` for dicts. -/
def dictMem {α : Type} (d : List (String × α)) (k : String) : Bool :=
  (dictFind d k).isSome

/-- Model of Python `d[k] = v`: update in place if present, else append. -/
def dictInsert {α : Type} (d : List (String × α)) (k : String) (v : α) :
    List (String × α) :=
  match d with
  | [] => [(k, v)]
  | (k', v') :: rest => if k' = k then (k, v) :: rest else (k', v') :: dictInsert rest k v

/-- Model of Python `s.add(x)` on an insertion-ordered set. -/
def setInsert (s : List String) (x : String) : List String :=
  if x ∈ s then s else s ++ [x]

/-! ## llm.py: error classification and the retry/fallback loop -/

/-- A Python exception as seen by `llm.py`: its message (`str(e)`) and an
optional `status_code` attribute. -/
structure Exn where
  msg : String
  statusCode : Option Int
deriving DecidableEq

/-- Outcome of one attempt at calling a model: the call succeeded and its
text parsed to a JSON dict, or parsing raised `json.JSONDecodeError`, or the
call raised some other exception. -/
inductive Outcome where
  | ok (result : List (String × String))
  | parseErr
  | exn (e : Exn)
deriving DecidableEq

/-- Final result of `_call_openai` / `_call_gemini`: a returned
`(dict, model_used)` pair, or a raised exception (`raised none` stands for
the final `RuntimeError("All ... models failed")`). -/
inductive CallResult where
  | returned (result : List (String × String)) (modelUsed : String)
  | raised (e : Option Exn)
deriving DecidableEq

/-- Observable events of a run: an API attempt on a model at a per-model
attempt index, or a `time.sleep` of the given number of seconds. -/
inductive Event where
  | attemptCall (model : String) (attempt : Nat)
  | wait (seconds : Nat)
deriving DecidableEq

/-- `llm.py` line 86: `"429" in str(e) or "rate" in str(e).lower()`. -/
def openaiThrottle (e : Exn) : Bool :=
  pyContains e.msg "429" || pyContains (pyLower e.msg) "rate"

/-- `llm.py` line 122: the OpenAI throttle test plus `"resource_exhausted"`. -/
def geminiThrottle (e : Exn) : Bool :=
  pyContains e.msg "429" || pyContains (pyLower e.msg) "rate" ||
    pyContains (pyLower e.msg) "resource_exhausted"

/-- `_is_model_error` (llm.py lines 42–50). -/
def isModelError (e : Exn) : Bool :=
  let msg := pyLower e.msg
  if pyContains msg "429" || pyContains msg "rate" then false
  else if e.statusCode = some 404 || e.statusCode = some 400 then true
  else
    pyContains msg "model" || pyContains msg "does not exist" ||
      pyContains msg "invalid model" || pyContains msg "not found" ||
        pyContains msg "not available"

/-- `max_retries = 5` (llm.py lines 69, 106). -/
def maxRetries : Nat := 5

/-- Outcome of the inner `for attempt in range(max_retries)` loop: the
function finished with a result, or control fell through to the next
candidate model (`break` on a model error, or exhaustion of the range). -/
inductive InnerOut where
  | done (r : CallResult)
  | nextModel
deriving DecidableEq

/-- The inner attempt loop of `_call_openai` / `_call_gemini` on one model,
parameterised by the provider's throttle test.  Arguments: current attempt
index, remaining iterations of the `range`, and `last_error`.  Returns the
loop outcome, the emitted events, and the updated `last_error`. -/
def innerLoop (throttle : Exn → Bool) (respond : String → Nat → Outcome)
    (model : String) : Nat → Nat → Option Exn → InnerOut × List Event × Option Exn
  | _, 0, lastE => (.nextModel, [], lastE)
  | attempt, fuel + 1, lastE =>
    let ev := Event.attemptCall model attempt
    match respond model attempt with
    | .ok r => (.done (.returned r model), [ev], lastE)
    | .parseErr =>
      if attempt < maxRetries - 1 then
        let rest := innerLoop throttle respond model (attempt + 1) fuel lastE
        (rest.1, ev :: .wait (2 ^ attempt) :: rest.2.1, rest.2.2)
      else
        (.done (.returned [] model), [ev], lastE)
    | .exn e =>
      if throttle e then
        let rest := innerLoop throttle respond model (attempt + 1) fuel (some e)
        (rest.1, ev :: .wait (2 ^ attempt) :: rest.2.1, rest.2.2)
      else if isModelError e then (.nextModel, [ev], some e)
      else (.done (.raised (some e)), [ev], some e)

/-- The outer `for current_model in models_to_try` loop. -/
def outerLoop (throttle : Exn → Bool) (respond : String → Nat → Outcome) :
    List String → Option Exn → CallResult × List Event
  | [], lastE => (.raised lastE, [])
  | m :: rest, lastE =>
    let r := innerLoop throttle respond m 0 maxRetries lastE
    match r.1 with
    | .done res => (res, r.2.1)
    | .nextModel =>
      let r2 := outerLoop throttle respond rest r.2.2
      (r2.1, r.2.1 ++ r2.2)

/-- `models_to_try = [model] + [m for m in fallbacks if m != model]`
(llm.py lines 63 and 100). -/
def modelsToTry (model : String) (fallbacks : List String) : List String :=
  model :: fallbacks.filter (fun m => m ≠ model)

/-- `_call_openai` (llm.py lines 62–96), with the network call and response
parsing abstracted into the `respond` oracle. -/
def callOpenai (respond : String → Nat → Outcome) (model : String)
    (fallbacks : List String) : CallResult × List Event :=
  outerLoop openaiThrottle respond (modelsToTry model fallbacks) none

/-- `_call_gemini` (llm.py lines 99–132), with the network call and response
parsing abstracted into the `respond` oracle. -/
def callGemini (respond : String → Nat → Outcome) (model : String)
    (fallbacks : List String) : CallResult × List Event :=
  outerLoop geminiThrottle respond (modelsToTry model fallbacks) none

/-! ## checkpoint.py -/

/-- One per-provider checkpoint section: `{results: {...}, model: ...}`. -/
structure Checkpoint where
  results : List (String × String)
  model : Option String
deriving DecidableEq

/-- `save_checkpoint` (checkpoint.py lines 19–29).  The checkpoint file is
`none` when it does not exist yet; the function returns the new file
contents (a JSON object keyed by provider). -/
def saveCheckpoint (store : Option (List (String × Checkpoint))) (provider : String)
    (checkpoint : Checkpoint) : List (String × Checkpoint) :=
  let data := match store with
    | some d => d
    | none => []
  dictInsert data provider checkpoint

/-! ## enrich_airport_codes.py -/

/-- A CSV row as produced by `csv.DictReader`: a Python dict from column
name to cell value. -/
abbrev Row := List (String × String)

/-- `row.get("code", "").strip().upper()` — the code normalisation used in
`get_codes_to_process` and `compute_stats`. -/
def normCode (row : Row) : String := pyUpper (pyStrip (dictGet row "code" ""))

/-- `get_codes_to_process` (enrich_airport_codes.py lines 58–68), as a fold
carrying the `seen` set and the `codes` accumulator. -/
def codesStep (results : List (String × String)) (st : List String × List String)
    (row : Row) : List String × List String :=
  let code := normCode row
  if code = "" ∨ dictMem results code ∨ code ∈ st.1 then st
  else (st.1 ++ [code], st.2 ++ [code])

/-- `get_codes_to_process` (enrich_airport_codes.py lines 58–68). -/
def getCodesToProcess (rows : List Row) (results : List (String × String)) :
    List String :=
  (rows.foldl (codesStep results) ([], [])).2

/-- First-seen-order de-duplication, following the spec's words: keep the
first occurrence of each element, in order. -/
def firstSeenDedup (l : List String) : List String := l.foldl setInsert []

/-- The code set `get_codes_to_process` is specified to return, built from
the spec's words: normalise (trim + uppercase), keep the non-empty codes
not yet in `results`, de-duplicate keeping first occurrences. -/
def codesSpec (rows : List Row) (results : List (String × String)) : List String :=
  firstSeenDedup
    ((rows.map normCode).filter (fun c => decide (c ≠ "" ∧ dictMem results c = false)))

/-- `PROVIDER_DEFAULTS[...]["column"]` values (config.py lines 12–15). -/
def providerColumns : List String := ["meanings_openai", "meanings_gemini"]

/-- `_load_existing_output` (enrich_airport_codes.py lines 40–46): key each
prior output row by its stripped `code` cell (a Python dict comprehension,
so a later duplicate code overwrites in place). -/
def loadExisting (priorRows : List Row) : List (String × Row) :=
  priorRows.foldl (fun d row => dictInsert d (pyStrip (dictGet row "code" "")) row) []

/-- Discovery of `known_cols` (enrich_airport_codes.py lines 139–147): the
configured provider columns, plus the `meanings_*` keys of a sample row of
the existing output, plus the current target column.  Python's set is
modelled as an insertion-ordered duplicate-free list. -/
def knownColsOf (column : String) (existing : List (String × Row)) : List String :=
  let k0 := providerColumns.foldl setInsert []
  let k1 :=
    match existing with
    | [] => k0
    | (_, sample) :: _ =>
      sample.foldl
        (fun s kv => if pyStartsWith kv.1 "meanings_" then setInsert s kv.1 else s) k0
  setInsert k1 column

/-- Lexicographic (code-point) comparison of character lists, the order
Python's `sorted` uses on strings. -/
def listLeChars : List Char → List Char → Bool
  | [], _ => true
  | _ :: _, [] => false
  | a :: as, b :: bs =>
    if a.toNat < b.toNat then true
    else if b.toNat < a.toNat then false
    else listLeChars as bs

/-- Lexicographic string comparison (Python `<=` on `str`). -/
def strLe (a b : String) : Bool := listLeChars a.toList b.toList

/-- Sorted insertion for `sortStrings`. -/
def insertSortedStr (x : String) : List String → List String
  | [] => [x]
  | y :: ys => if strLe x y then x :: y :: ys else y :: insertSortedStr x ys

/-- Model of Python `sorted` on a list of strings (insertion sort; on
duplicate-free input it produces the unique sorted arrangement, which is
what `sorted(known_cols)` yields). -/
def sortStrings (l : List String) : List String := l.foldr insertSortedStr []

/-- The output header (enrich_airport_codes.py lines 149–152): base columns
first, then each sorted known column not already present. -/
def fieldnamesOf (baseFieldnames : List String) (knownCols : List String) :
    List String :=
  (sortStrings knownCols).foldl
    (fun fns col => if col ∈ fns then fns else fns ++ [col]) baseFieldnames

/-- The per-row merge loop of `_write_output` (enrich_airport_codes.py lines
154–169).  `reparse` stands for the out-of-scope
`_to_semicolon_separated(json.loads(raw))` step with its
`json.JSONDecodeError` fallback to `raw`. -/
def mergeRow (existing : List (String × Row)) (knownCols : List String)
    (column : String) (results : List (String × String)) (reparse : String → String)
    (row : Row) : Row :=
  let code := pyStrip (dictGet row "code" "")
  let row1 :=
    match dictFind existing code with
    | none => row
    | some prior =>
      knownCols.foldl
        (fun r col =>
          if col ≠ column ∧ (dictFind prior col).isSome then
            dictInsert r col (dictGet prior col "")
          else r) row
  let raw := dictGet results (pyUpper code) ""
  let raw2 := if pyStartsWith raw "\x7b" then reparse raw else raw
  dictInsert row1 column raw2

/-- One written CSV row: `csv.DictWriter` with `extrasaction="ignore"` and
default `restval=""` emits, per field name, the merged row's value or the
empty string. -/
def writeRow (reparse : String → String) (baseFieldnames : List String)
    (results : List (String × String)) (column : String) (priorRows : List Row)
    (row : Row) : Row :=
  let existing := loadExisting priorRows
  let knownCols := knownColsOf column existing
  let fieldnames := fieldnamesOf baseFieldnames knownCols
  fieldnames.map
    (fun f => (f, dictGet (mergeRow existing knownCols column results reparse row) f ""))

/-- `_write_output` (enrich_airport_codes.py lines 128–174): the produced
header and the written rows. -/
def writeOutput (reparse : String → String) (rows : List Row)
    (baseFieldnames : List String) (results : List (String × String))
    (column : String) (priorRows : List Row) : List String × List Row :=
  (fieldnamesOf baseFieldnames (knownColsOf column (loadExisting priorRows)),
    rows.map (writeRow reparse baseFieldnames results column priorRows))

/-! ## compare_meanings.py -/

/-- `_parse_meanings` (compare_meanings.py lines 16–20). -/
def parseMeanings (cell : String) : List String :=
  if pyStrip cell = "" then []
  else
    (pySplitChar ';' cell).filterMap
      (fun m => let s := pyStrip m; if s = "" then none else some s)

/-- `_normalize` (compare_meanings.py lines 23–29): lowercase and strip,
then cut at the first `(` and strip again. -/
def normalizeMeaning (meaning : String) : String :=
  let s := pyStrip (pyLower meaning)
  if pyContains s "(" then
    pyStrip (String.mk (s.toList.take (idxOfChar '(' s.toList)))
  else s

/-- The normalization as claim C9 words it: lowercase and trim, and drop a
*trailing* parenthetical (a final `(...)` group) with its contents.
Modelled from the spec for comparison with `normalizeMeaning`. -/
def trailingParenNormalize (meaning : String) : String :=
  let s := pyStrip (pyLower meaning)
  let cs := s.toList
  if cs.getLast? = some ')' ∧ '(' ∈ cs then
    pyStrip (String.mk (cs.take (cs.length - 1 - idxOfChar '(' cs.reverse)))
  else s

/-- One entry of `compute_stats`'s `pairwise` list (compare_meanings.py
lines 74–86).  Python's float division is modelled over `ℚ`. -/
structure PairStats where
  a : String
  b : String
  both : Nat
  onlyA : Nat
  onlyB : Nat
  jaccard : ℚ
deriving DecidableEq

/-- One entry of `compute_stats`'s `agreement` list (compare_meanings.py
lines 109–127). -/
structure AgreeStats where
  a : String
  b : String
  sharedCodes : Nat
  agreeCount : Nat
  agreePct : ℚ
deriving DecidableEq

/-- Python set intersection `sa & sb` over insertion-ordered set lists. -/
def interList (s t : List String) : List String := s.filter (fun x => x ∈ t)

/-- Python set difference `sa - sb`. -/
def diffList (s t : List String) : List String := s.filter (fun x => x ∉ t)

/-- Python set union `sa | sb`. -/
def unionList (s t : List String) : List String := s ++ t.filter (fun x => x ∉ s)

/-- `itertools.combinations(columns, 2)`. -/
def pairCombos : List String → List (String × String)
  | [] => []
  | x :: xs => xs.map (fun y => (x, y)) ++ pairCombos xs

/-- The state built by `compute_stats`'s row loop: `col_codes` (per-column
sets of codes with at least one parsed meaning) and `code_meanings`
(per-code, per-column parsed meanings). -/
abbrev StatsState :=
  List (String × List String) × List (String × List (String × List String))

/-- The per-column body of `compute_stats`'s row loop (compare_meanings.py
lines 51–56). -/
def statsColStep (row : Row) (st : StatsState) (col : String) : StatsState :=
  let code := normCode row
  let meanings := parseMeanings (dictGet row col "")
  if meanings = [] then st
  else
    (dictInsert st.1 col (setInsert (dictGet st.1 col []) code),
      dictInsert st.2 code (dictInsert (dictGet st.2 code []) col meanings))

/-- The row loop of `compute_stats` (compare_meanings.py lines 49–56). -/
def buildStats (rows : List Row) (columns : List String) : StatsState :=
  rows.foldl (fun st row => columns.foldl (statsColStep row) st)
    (columns.map (fun c => (c, [])), [])

/-- The `pairwise` overlap computation of `compute_stats`
(compare_meanings.py lines 74–86). -/
def computePairwise (rows : List Row) (columns : List String) : List PairStats :=
  let colCodes := (buildStats rows columns).1
  (pairCombos columns).map
    (fun p =>
      let sa := dictGet colCodes p.1 []
      let sb := dictGet colCodes p.2 []
      let both := (interList sa sb).length
      let uni := (unionList sa sb).length
      { a := p.1, b := p.2, both := both,
        onlyA := (diffList sa sb).length, onlyB := (diffList sb sa).length,
        jaccard := if uni ≠ 0 then (both : ℚ) / uni else 0 })

/-- The `agreement` computation of `compute_stats` (compare_meanings.py
lines 109–127): among codes present in both columns, count those whose
normalized meaning sets intersect. -/
def computeAgreement (rows : List Row) (columns : List String) : List AgreeStats :=
  let st := buildStats rows columns
  (pairCombos columns).map
    (fun p =>
      let shared := interList (dictGet st.1 p.1 []) (dictGet st.1 p.2 [])
      if shared = [] then
        { a := p.1, b := p.2, sharedCodes := 0, agreeCount := 0, agreePct := 0 }
      else
        let agree :=
          (shared.filter
            (fun code =>
              let ta := (dictGet (dictGet st.2 code []) p.1 []).map normalizeMeaning
              let tb := (dictGet (dictGet st.2 code []) p.2 []).map normalizeMeaning
              ta.any (fun x => x ∈ tb))).length
        { a := p.1, b := p.2, sharedCodes := shared.length, agreeCount := agree,
          agreePct := (agree : ℚ) / shared.length * 100 })

/-- The fields of `compute_stats`'s result the claims are about. -/
structure Stats where
  pairwise : List PairStats
  agreement : List AgreeStats

/-- `compute_stats` (compare_meanings.py lines 41–151), restricted to the
`pairwise` and `agreement` fields. -/
def computeStats (rows : List Row) (columns : List String) : Stats :=
  ⟨computePairwise rows columns, computeAgreement rows columns⟩

/-- Example rows for the pairwise-overlap claim: column `meanings_a` covers
codes AAA and BBB, column `meanings_b` covers BBB and CCC. -/
def overlapExampleRows : List Row :=
  [[("code", "AAA"), ("meanings_a", "x"), ("meanings_b", "")],
   [("code", "BBB"), ("meanings_a", "x"), ("meanings_b", "y")],
   [("code", "CCC"), ("meanings_a", ""), ("meanings_b", "y")]]

/-- Example rows for the normalization claim: one code carrying
"Application (software)" in one column and "application" in the other. -/
def agreementExampleRows : List Row :=
  [[("code", "APP"), ("meanings_a", "Application (software)"),
    ("meanings_b", "application")]]

/-! ## Step lemmas for the retry/fallback loop -/

lemma innerLoop_zero (θ : Exn → Bool) (r : String → Nat → Outcome) (m : String)
    (a : Nat) (e : Option Exn) : innerLoop θ r m a 0 e = (.nextModel, [], e) := rfl

lemma innerLoop_ok (θ : Exn → Bool) (r : String → Nat → Outcome) (m : String)
    (a fuel : Nat) (e : Option Exn) (res : List (String × String))
    (h : r m a = .ok res) :
    innerLoop θ r m a (fuel + 1) e = (.done (.returned res m), [.attemptCall m a], e) := by
  simp only [innerLoop, h]

lemma innerLoop_parseErr_retry (θ : Exn → Bool) (r : String → Nat → Outcome) (m : String)
    (a fuel : Nat) (e : Option Exn) (h : r m a = .parseErr) (ha : a < maxRetries - 1) :
    innerLoop θ r m a (fuel + 1) e =
      ((innerLoop θ r m (a + 1) fuel e).1,
        .attemptCall m a :: .wait (2 ^ a) :: (innerLoop θ r m (a + 1) fuel e).2.1,
        (innerLoop θ r m (a + 1) fuel e).2.2) := by
  simp only [innerLoop, h, if_pos ha]

lemma innerLoop_parseErr_last (θ : Exn → Bool) (r : String → Nat → Outcome) (m : String)
    (a fuel : Nat) (e : Option Exn) (h : r m a = .parseErr) (ha : ¬ a < maxRetries - 1) :
    innerLoop θ r m a (fuel + 1) e = (.done (.returned [] m), [.attemptCall m a], e) := by
  simp only [innerLoop, h, if_neg ha]

lemma innerLoop_throttle (θ : Exn → Bool) (r : String → Nat → Outcome) (m : String)
    (a fuel : Nat) (e : Option Exn) (ex : Exn) (h : r m a = .exn ex)
    (hθ : θ ex = true) :
    innerLoop θ r m a (fuel + 1) e =
      ((innerLoop θ r m (a + 1) fuel (some ex)).1,
        .attemptCall m a :: .wait (2 ^ a) :: (innerLoop θ r m (a + 1) fuel (some ex)).2.1,
        (innerLoop θ r m (a + 1) fuel (some ex)).2.2) := by
  simp only [innerLoop, h, hθ, if_pos]

lemma innerLoop_modelError (θ : Exn → Bool) (r : String → Nat → Outcome) (m : String)
    (a fuel : Nat) (e : Option Exn) (ex : Exn) (h : r m a = .exn ex)
    (hθ : θ ex = false) (hM : isModelError ex = true) :
    innerLoop θ r m a (fuel + 1) e = (.nextModel, [.attemptCall m a], some ex) := by
  simp only [innerLoop, h, hθ, hM, Bool.false_eq_true, if_false, if_true]

lemma outerLoop_done (θ : Exn → Bool) (r : String → Nat → Outcome) (m : String)
    (rest : List String) (e : Option Exn) (res : CallResult)
    (h : (innerLoop θ r m 0 maxRetries e).1 = .done res) :
    outerLoop θ r (m :: rest) e = (res, (innerLoop θ r m 0 maxRetries e).2.1) := by
  simp only [outerLoop, h]

lemma outerLoop_next (θ : Exn → Bool) (r : String → Nat → Outcome) (m : String)
    (rest : List String) (e : Option Exn)
    (h : (innerLoop θ r m 0 maxRetries e).1 = .nextModel) :
    outerLoop θ r (m :: rest) e =
      ((outerLoop θ r rest (innerLoop θ r m 0 maxRetries e).2.2).1,
        (innerLoop θ r m 0 maxRetries e).2.1 ++
          (outerLoop θ r rest (innerLoop θ r m 0 maxRetries e).2.2).2) := by
  simp only [outerLoop, h]

/-- With every attempt on `m` failing to parse, the inner loop emits five
attempts with backoff waits 1, 2, 4, 8 between them and finishes with the
empty-dict return. -/
lemma innerLoop_allParseErr (θ : Exn → Bool) (r : String → Nat → Outcome) (m : String)
    (e : Option Exn) (h : ∀ a, a < 5 → r m a = .parseErr) :
    innerLoop θ r m 0 maxRetries e =
      (.done (.returned [] m),
        [.attemptCall m 0, .wait 1, .attemptCall m 1, .wait 2, .attemptCall m 2, .wait 4,
          .attemptCall m 3, .wait 8, .attemptCall m 4], e) := by
  have h0 := h 0 (by norm_num)
  have h1 := h 1 (by norm_num)
  have h2 := h 2 (by norm_num)
  have h3 := h 3 (by norm_num)
  have h4 := h 4 (by norm_num)
  have e4 : innerLoop θ r m 4 1 e = (.done (.returned [] m), [.attemptCall m 4], e) := by
    have t := innerLoop_parseErr_last θ r m 4 0 e h4 (by decide)
    norm_num at t
    exact t
  have e3 : innerLoop θ r m 3 2 e =
      (.done (.returned [] m), [.attemptCall m 3, .wait 8, .attemptCall m 4], e) := by
    have t := innerLoop_parseErr_retry θ r m 3 1 e h3 (by decide)
    norm_num at t
    rw [t, e4]
  have e2 : innerLoop θ r m 2 3 e =
      (.done (.returned [] m),
        [.attemptCall m 2, .wait 4, .attemptCall m 3, .wait 8, .attemptCall m 4], e) := by
    have t := innerLoop_parseErr_retry θ r m 2 2 e h2 (by decide)
    norm_num at t
    rw [t, e3]
  have e1 : innerLoop θ r m 1 4 e =
      (.done (.returned [] m),
        [.attemptCall m 1, .wait 2, .attemptCall m 2, .wait 4, .attemptCall m 3, .wait 8,
          .attemptCall m 4], e) := by
    have t := innerLoop_parseErr_retry θ r m 1 3 e h1 (by decide)
    norm_num at t
    rw [t, e2]
  have t := innerLoop_parseErr_retry θ r m 0 4 e h0 (by decide)
  norm_num at t
  show innerLoop θ r m 0 5 e = _
  rw [t, e1]

/-- With every attempt on `m` throttled, the inner loop emits five attempts
with waits 1, 2, 4, 8, 16 and falls through to the next model. -/
lemma innerLoop_allThrottle (θ : Exn → Bool) (r : String → Nat → Outcome) (m : String)
    (e : Option Exn) (ex : Exn) (hθ : θ ex = true) (h : ∀ a, a < 5 → r m a = .exn ex) :
    innerLoop θ r m 0 maxRetries e =
      (.nextModel,
        [.attemptCall m 0, .wait 1, .attemptCall m 1, .wait 2, .attemptCall m 2, .wait 4,
          .attemptCall m 3, .wait 8, .attemptCall m 4, .wait 16], some ex) := by
  have h0 := h 0 (by norm_num)
  have h1 := h 1 (by norm_num)
  have h2 := h 2 (by norm_num)
  have h3 := h 3 (by norm_num)
  have h4 := h 4 (by norm_num)
  have e4 : innerLoop θ r m 4 1 (some ex) =
      (.nextModel, [.attemptCall m 4, .wait 16], some ex) := by
    have t := innerLoop_throttle θ r m 4 0 (some ex) ex h4 hθ
    norm_num [innerLoop_zero] at t
    exact t
  have e3 : innerLoop θ r m 3 2 (some ex) =
      (.nextModel, [.attemptCall m 3, .wait 8, .attemptCall m 4, .wait 16], some ex) := by
    have t := innerLoop_throttle θ r m 3 1 (some ex) ex h3 hθ
    norm_num at t
    rw [t, e4]
  have e2 : innerLoop θ r m 2 3 (some ex) =
      (.nextModel,
        [.attemptCall m 2, .wait 4, .attemptCall m 3, .wait 8, .attemptCall m 4, .wait 16],
        some ex) := by
    have t := innerLoop_throttle θ r m 2 2 (some ex) ex h2 hθ
    norm_num at t
    rw [t, e3]
  have e1 : innerLoop θ r m 1 4 (some ex) =
      (.nextModel,
        [.attemptCall m 1, .wait 2, .attemptCall m 2, .wait 4, .attemptCall m 3, .wait 8,
          .attemptCall m 4, .wait 16], some ex) := by
    have t := innerLoop_throttle θ r m 1 3 (some ex) ex h1 hθ
    norm_num at t
    rw [t, e2]
  have t := innerLoop_throttle θ r m 0 4 e ex h0 hθ
  norm_num at t
  show innerLoop θ r m 0 5 e = _
  rw [t, e1]

lemma maxRetries_eq : maxRetries = 5 := rfl

/-! ## Dict and set lemmas -/

lemma dictGet_eq {α : Type} (d : List (String × α)) (k : String) (v₀ : α) :
    dictGet d k v₀ = (dictFind d k).getD v₀ := rfl

lemma dictFind_insert_self {α : Type} (d : List (String × α)) (k : String) (v : α) :
    dictFind (dictInsert d k v) k = some v := by
  induction d with
  | nil => simp [dictInsert, dictFind]
  | cons kv rest ih =>
    obtain ⟨a, b⟩ := kv
    by_cases h : a = k
    · simp [dictInsert, dictFind, h]
    · simp [dictInsert, dictFind, h, ih]

lemma dictFind_insert_ne {α : Type} (d : List (String × α)) (k q : String) (v : α)
    (h : q ≠ k) : dictFind (dictInsert d k v) q = dictFind d q := by
  have hkq : ¬ k = q := fun hh => h hh.symm
  induction d with
  | nil => simp [dictInsert, dictFind, hkq]
  | cons kv rest ih =>
    obtain ⟨a, b⟩ := kv
    by_cases ha : a = k
    · subst ha
      simp [dictInsert, dictFind, hkq]
    · simp [dictInsert, dictFind, ha, ih]

lemma mem_setInsert (s : List String) (x y : String) :
    y ∈ setInsert s x ↔ y = x ∨ y ∈ s := by
  unfold setInsert
  by_cases h : x ∈ s
  · simp only [if_pos h]
    constructor
    · exact fun hy => Or.inr hy
    · rintro (rfl | hy)
      · exact h
      · exact hy
  · simp [if_neg h, List.mem_append, or_comm]

lemma setInsert_nodup (s : List String) (x : String) (h : s.Nodup) :
    (setInsert s x).Nodup := by
  unfold setInsert
  by_cases hx : x ∈ s
  · simpa [if_pos hx] using h
  · simp [if_neg hx, List.nodup_append, h, hx]

lemma foldl_setInsert_nodup (l : List String) (acc : List String) (h : acc.Nodup) :
    (l.foldl setInsert acc).Nodup := by
  induction l generalizing acc with
  | nil => simpa using h
  | cons x xs ih => exact ih (setInsert acc x) (setInsert_nodup acc x h)

lemma mem_foldl_setInsert (l : List String) (acc : List String) (c : String) :
    c ∈ l.foldl setInsert acc ↔ c ∈ acc ∨ c ∈ l := by
  induction l generalizing acc with
  | nil => simp
  | cons x xs ih =>
    simp only [List.foldl_cons, ih, mem_setInsert, List.mem_cons]
    tauto

/-! ## Order and sorting lemmas for `sortStrings` -/

lemma listLeChars_total (as bs : List Char) :
    listLeChars as bs = true ∨ listLeChars bs as = true := by
  induction as generalizing bs with
  | nil => exact Or.inl rfl
  | cons a as ih =>
    cases bs with
    | nil => exact Or.inr rfl
    | cons b bs =>
      by_cases hab : a.toNat < b.toNat
      · exact Or.inl (by simp [listLeChars, hab])
      · by_cases hba : b.toNat < a.toNat
        · exact Or.inr (by simp [listLeChars, hba])
        · rcases ih bs with h | h
          · exact Or.inl (by simp [listLeChars, hab, hba, h])
          · exact Or.inr (by simp [listLeChars, hab, hba, h])

lemma listLeChars_trans (as bs cs : List Char) (h1 : listLeChars as bs = true)
    (h2 : listLeChars bs cs = true) : listLeChars as cs = true := by
  induction as generalizing bs cs with
  | nil => rfl
  | cons a as ih =>
    cases bs with
    | nil => simp [listLeChars] at h1
    | cons b bs =>
      cases cs with
      | nil => simp [listLeChars] at h2
      | cons c cs =>
        simp only [listLeChars] at h1 h2 ⊢
        by_cases hab : a.toNat < b.toNat
        · by_cases hbc : b.toNat < c.toNat
          · have hac : a.toNat < c.toNat := by omega
            simp [hac]
          · by_cases hcb : c.toNat < b.toNat
            · simp [hbc, hcb] at h2
            · have hac : a.toNat < c.toNat := by omega
              simp [hac]
        · by_cases hba : b.toNat < a.toNat
          · simp [hab, hba] at h1
          · by_cases hbc : b.toNat < c.toNat
            · have hac : a.toNat < c.toNat := by omega
              simp [hac]
            · by_cases hcb : c.toNat < b.toNat
              · simp [hbc, hcb] at h2
              · have hac : ¬ a.toNat < c.toNat := by omega
                have hca : ¬ c.toNat < a.toNat := by omega
                rw [if_neg hac, if_neg hca]
                simp only [if_neg hab, if_neg hba] at h1
                simp only [if_neg hbc, if_neg hcb] at h2
                exact ih bs cs h1 h2

lemma strLe_total (a b : String) : strLe a b = true ∨ strLe b a = true :=
  listLeChars_total a.toList b.toList

lemma strLe_trans (a b c : String) (h1 : strLe a b = true) (h2 : strLe b c = true) :
    strLe a c = true :=
  listLeChars_trans a.toList b.toList c.toList h1 h2

lemma mem_insertSortedStr (x z : String) (l : List String) :
    z ∈ insertSortedStr x l ↔ z = x ∨ z ∈ l := by
  induction l with
  | nil => simp [insertSortedStr]
  | cons y ys ih =>
    unfold insertSortedStr
    by_cases h : strLe x y = true
    · simp [h]
    · simp only [if_neg h, List.mem_cons, ih]
      tauto

lemma pairwise_insertSortedStr (x : String) (l : List String)
    (h : List.Pairwise (fun a b => strLe a b = true) l) :
    List.Pairwise (fun a b => strLe a b = true) (insertSortedStr x l) := by
  induction l with
  | nil => simp [insertSortedStr]
  | cons y ys ih =>
    unfold insertSortedStr
    rcases List.pairwise_cons.mp h with ⟨hy, hys⟩
    by_cases hxy : strLe x y = true
    · rw [if_pos hxy]
      refine List.pairwise_cons.mpr ⟨?_, h⟩
      intro z hz
      rcases List.mem_cons.mp hz with rfl | hz
      · exact hxy
      · exact strLe_trans x y z hxy (hy z hz)
    · rw [if_neg hxy]
      refine List.pairwise_cons.mpr ⟨?_, ih hys⟩
      intro z hz
      rcases (mem_insertSortedStr x z ys).mp hz with rfl | hz
      · rcases strLe_total z y with hh | hh
        · exact absurd hh hxy
        · exact hh
      · exact hy z hz

lemma sorted_sortStrings (l : List String) :
    List.Pairwise (fun a b => strLe a b = true) (sortStrings l) := by
  induction l with
  | nil => simp [sortStrings]
  | cons x xs ih => exact pairwise_insertSortedStr x (sortStrings xs) ih

lemma perm_insertSortedStr (x : String) (m : List String) :
    (insertSortedStr x m).Perm (x :: m) := by
  induction m with
  | nil => simp [insertSortedStr]
  | cons y ys ihm =>
    unfold insertSortedStr
    by_cases h : strLe x y = true
    · rw [if_pos h]
    · rw [if_neg h]
      exact (ihm.cons y).trans (List.Perm.swap x y ys)

lemma perm_sortStrings (l : List String) : (sortStrings l).Perm l := by
  induction l with
  | nil => simp [sortStrings]
  | cons x xs ih =>
    show (insertSortedStr x (sortStrings xs)).Perm (x :: xs)
    exact (perm_insertSortedStr x (sortStrings xs)).trans (ih.cons x)

/-! ## Header and merge lemmas for `_write_output` -/

lemma foldl_preserve_nodup {β : Type} (f : List String → β → List String)
    (hf : ∀ s x, s.Nodup → (f s x).Nodup) (l : List β) (acc : List String)
    (h : acc.Nodup) : (l.foldl f acc).Nodup := by
  induction l generalizing acc with
  | nil => simpa using h
  | cons x xs ih => exact ih (f acc x) (hf acc x h)

lemma knownColsOf_nodup (column : String) (existing : List (String × Row)) :
    (knownColsOf column existing).Nodup := by
  unfold knownColsOf
  apply setInsert_nodup
  have hk0 : (providerColumns.foldl setInsert []).Nodup :=
    foldl_setInsert_nodup providerColumns [] (by simp)
  cases existing with
  | nil => exact hk0
  | cons p rest =>
    apply foldl_preserve_nodup
    · intro s x hs
      by_cases h : pyStartsWith x.1 "meanings_" = true
      · simpa [h] using setInsert_nodup s x.1 hs
      · simpa [h] using hs
    · exact hk0

lemma mem_sampleFold (sample : Row) (acc : List String) (x : String)
    (h : x ∈ sample.foldl
      (fun s kv => if pyStartsWith kv.1 "meanings_" then setInsert s kv.1 else s) acc) :
    x ∈ acc ∨ pyStartsWith x "meanings_" = true := by
  induction sample generalizing acc with
  | nil => exact Or.inl (by simpa using h)
  | cons kv rest ih =>
    simp only [List.foldl_cons] at h
    by_cases hkv : pyStartsWith kv.1 "meanings_" = true
    · rw [if_pos hkv] at h
      rcases ih (setInsert acc kv.1) h with hx | hx
      · rcases (mem_setInsert acc kv.1 x).mp hx with rfl | hx
        · exact Or.inr hkv
        · exact Or.inl hx
      · exact Or.inr hx
    · rw [if_neg hkv] at h
      exact ih acc h

lemma mem_knownColsOf (column : String) (existing : List (String × Row)) (x : String)
    (h : x ∈ knownColsOf column existing) :
    x = column ∨ x ∈ providerColumns ∨ pyStartsWith x "meanings_" = true := by
  unfold knownColsOf at h
  have hk0 : ∀ y, y ∈ providerColumns.foldl setInsert [] → y ∈ providerColumns := by
    intro y hy
    rcases (mem_foldl_setInsert providerColumns [] y).mp hy with hy | hy
    · simp at hy
    · exact hy
  cases existing with
  | nil =>
    rcases (mem_setInsert _ column x).mp h with rfl | h
    · exact Or.inl rfl
    · exact Or.inr (Or.inl (hk0 x h))
  | cons p rest =>
    rcases (mem_setInsert _ column x).mp h with rfl | h
    · exact Or.inl rfl
    · rcases mem_sampleFold p.2 _ x h with hx | hx
      · exact Or.inr (Or.inl (hk0 x hx))
      · exact Or.inr (Or.inr hx)

lemma foldl_append_absent (l : List String) (acc : List String) (hl : l.Nodup) :
    l.foldl (fun fns col => if col ∈ fns then fns else fns ++ [col]) acc =
      acc ++ l.filter (fun c => c ∉ acc) := by
  induction l generalizing acc with
  | nil => simp
  | cons c l2 ih =>
    rcases List.nodup_cons.mp hl with ⟨hc, hl2⟩
    simp only [List.foldl_cons, List.filter_cons]
    by_cases h : c ∈ acc
    · rw [if_pos h]
      have : (decide (c ∉ acc)) = false := by simp [h]
      rw [this]
      exact ih acc hl2
    · rw [if_neg h]
      have : (decide (c ∉ acc)) = true := by simp [h]
      rw [this]
      rw [ih (acc ++ [c]) hl2]
      have hfc : l2.filter (fun x => x ∉ acc ++ [c]) = l2.filter (fun x => x ∉ acc) := by
        apply List.filter_congr
        intro x hx
        have hxc : x ≠ c := fun hh => hc (hh ▸ hx)
        simp [List.mem_append, hxc]
      rw [hfc]
      simp

lemma mem_fieldnamesOf (base knownCols : List String) (col : String)
    (hnd : knownCols.Nodup) (h : col ∈ knownCols) : col ∈ fieldnamesOf base knownCols := by
  unfold fieldnamesOf
  rw [foldl_append_absent _ base ((perm_sortStrings knownCols).nodup_iff.mpr hnd)]
  by_cases hb : col ∈ base
  · exact List.mem_append.mpr (Or.inl hb)
  · refine List.mem_append.mpr (Or.inr ?_)
    refine List.mem_filter.mpr ⟨(perm_sortStrings knownCols).mem_iff.mpr h, by simp [hb]⟩

lemma dictFind_projection (fns : List String) (g : String → String) (col : String)
    (h : col ∈ fns) : dictFind (fns.map (fun f => (f, g f))) col = some (g col) := by
  induction fns with
  | nil => simp at h
  | cons f rest ih =>
    by_cases hf : f = col
    · subst hf
      simp [dictFind]
    · rcases List.mem_cons.mp h with rfl | hmem
      · exact absurd rfl hf
      · simp only [List.map_cons, dictFind, if_neg hf]
        exact ih hmem

lemma notmem_mergeFold_find (prior : Row) (column : String) (L : List String) (r : Row)
    (col : String) (h : col ∉ L) :
    dictFind
      (L.foldl
        (fun r c =>
          if c ≠ column ∧ (dictFind prior c).isSome then dictInsert r c (dictGet prior c "")
          else r) r) col = dictFind r col := by
  induction L generalizing r with
  | nil => rfl
  | cons c L2 ih =>
    have hc : col ≠ c := fun hh => h (hh ▸ List.mem_cons_self c L2)
    have h2 : col ∉ L2 := fun hh => h (List.mem_cons_of_mem c hh)
    simp only [List.foldl_cons]
    rw [ih _ h2]
    by_cases hcond : c ≠ column ∧ (dictFind prior c).isSome
    · rw [if_pos hcond, dictFind_insert_ne r c col _ hc]
    · rw [if_neg hcond]

lemma mergeFold_find (prior : Row) (column : String) (L : List String) (r : Row)
    (col : String) (hnd : L.Nodup) (hcol : col ∈ L) (hne : col ≠ column)
    (hpc : (dictFind prior col).isSome) :
    dictFind
      (L.foldl
        (fun r c =>
          if c ≠ column ∧ (dictFind prior c).isSome then dictInsert r c (dictGet prior c "")
          else r) r) col = some (dictGet prior col "") := by
  induction L generalizing r with
  | nil => simp at hcol
  | cons d L2 ih =>
    rcases List.nodup_cons.mp hnd with ⟨hdL2, hnd2⟩
    simp only [List.foldl_cons]
    by_cases hceq : col = d
    · subst hceq
      rw [if_pos ⟨hne, hpc⟩]
      rw [notmem_mergeFold_find prior column L2 _ col hdL2]
      exact dictFind_insert_self r col _
    · have hmem : col ∈ L2 := by
        rcases List.mem_cons.mp hcol with h | h
        · exact absurd h hceq
        · exact h
      exact ih _ hnd2 hmem

/-! ## `compute_stats` lemmas -/

lemma take_idxOfChar (c : Char) (cs : List Char) :
    cs.take (idxOfChar c cs) = cs.takeWhile (fun x => decide (x ≠ c)) := by
  induction cs with
  | nil => rfl
  | cons x xs ih =>
    unfold idxOfChar
    by_cases h : x = c
    · subst h
      simp [List.takeWhile_cons]
    · rw [if_neg h]
      simp [List.takeWhile_cons, h, ih]

lemma dictGet_insert_self {α : Type} (d : List (String × α)) (k : String) (v v₀ : α) :
    dictGet (dictInsert d k v) k v₀ = v := by
  rw [dictGet_eq, dictFind_insert_self]
  rfl

lemma dictGet_insert_ne {α : Type} (d : List (String × α)) (k q : String) (v v₀ : α)
    (h : q ≠ k) : dictGet (dictInsert d k v) q v₀ = dictGet d q v₀ := by
  rw [dictGet_eq, dictFind_insert_ne d k q v h, dictGet_eq]

lemma dictGet_init_empty (cols : List String) (col : String) :
    dictGet (cols.map (fun c => (c, ([] : List String)))) col [] = [] := by
  induction cols with
  | nil => rfl
  | cons c cs ih =>
    simp only [List.map_cons, dictGet_eq, dictFind]
    by_cases h : c = col
    · rw [if_pos h]
      rfl
    · rw [if_neg h, ← dictGet_eq]
      exact ih

lemma statsColStep_nodup (row : Row) (st : StatsState) (col : String)
    (h : ∀ q l, dictFind st.1 q = some l → l.Nodup) :
    ∀ q l, dictFind (statsColStep row st col).1 q = some l → l.Nodup := by
  intro q l hq
  unfold statsColStep at hq
  by_cases hm : parseMeanings (dictGet row col "") = []
  · rw [if_pos hm] at hq
    exact h q l hq
  · rw [if_neg hm] at hq
    dsimp only at hq
    by_cases hcq : q = col
    · subst hcq
      rw [dictFind_insert_self] at hq
      cases Option.some.inj hq
      apply setInsert_nodup
      rw [dictGet_eq]
      cases hfind : dictFind st.1 q with
      | none => simp
      | some l0 => simpa using h q l0 hfind
    · rw [dictFind_insert_ne _ _ _ _ hcq] at hq
      exact h q l hq

lemma colsFold_nodup (row : Row) (cols : List String) (st : StatsState)
    (h : ∀ q l, dictFind st.1 q = some l → l.Nodup) :
    ∀ q l, dictFind (cols.foldl (statsColStep row) st).1 q = some l → l.Nodup := by
  induction cols generalizing st with
  | nil => exact h
  | cons col cs ih => exact ih _ (statsColStep_nodup row st col h)

lemma dictFind_init_nodup (cols : List String) (q : String) (l : List String)
    (hq : dictFind (cols.map (fun c => (c, ([] : List String)))) q = some l) :
    l.Nodup := by
  induction cols with
  | nil => simp [dictFind] at hq
  | cons c cs ih =>
    simp only [List.map_cons, dictFind] at hq
    by_cases h : c = q
    · rw [if_pos h] at hq
      cases Option.some.inj hq
      exact List.nodup_nil
    · rw [if_neg h] at hq
      exact ih hq

lemma buildStats_colCodes_nodup (rows : List Row) (cols : List String) (col : String) :
    (dictGet (buildStats rows cols).1 col []).Nodup := by
  have hgen : ∀ (rs : List Row) (st : StatsState),
      (∀ q l, dictFind st.1 q = some l → l.Nodup) →
      ∀ q l, dictFind
        ((rs.foldl (fun st row => cols.foldl (statsColStep row) st) st)).1 q = some l →
        l.Nodup := by
    intro rs
    induction rs with
    | nil => exact fun st h => h
    | cons row rest ih => exact fun st h => ih _ (colsFold_nodup row cols st h)
  have hinit : ∀ q l,
      dictFind (cols.map (fun c => (c, ([] : List String)))) q = some l → l.Nodup :=
    dictFind_init_nodup cols
  rw [dictGet_eq]
  cases hfind : dictFind (buildStats rows cols).1 col with
  | none => simp
  | some l => simpa using hgen rows _ hinit col l hfind

lemma mem_statsColStep (row : Row) (st : StatsState) (col q : String) (c : String) :
    c ∈ dictGet (statsColStep row st col).1 q [] ↔
      c ∈ dictGet st.1 q [] ∨
        (q = col ∧ parseMeanings (dictGet row col "") ≠ [] ∧ c = normCode row) := by
  unfold statsColStep
  by_cases hm : parseMeanings (dictGet row col "") = []
  · rw [if_pos hm]
    simp [hm]
  · rw [if_neg hm]
    by_cases hcq : q = col
    · subst hcq
      dsimp only
      rw [dictGet_insert_self, mem_setInsert]
      constructor
      · rintro (rfl | h)
        · exact Or.inr ⟨rfl, hm, rfl⟩
        · exact Or.inl h
      · rintro (h | ⟨_, _, rfl⟩)
        · exact Or.inr h
        · exact Or.inl rfl
    · dsimp only
      rw [dictGet_insert_ne _ _ _ _ _ hcq]
      simp [hcq]

lemma mem_colsFold (row : Row) (cols : List String) (st : StatsState) (q c : String) :
    c ∈ dictGet (cols.foldl (statsColStep row) st).1 q [] ↔
      c ∈ dictGet st.1 q [] ∨
        (q ∈ cols ∧ parseMeanings (dictGet row q "") ≠ [] ∧ c = normCode row) := by
  induction cols generalizing st with
  | nil => simp
  | cons col cs ih =>
    simp only [List.foldl_cons]
    rw [ih, mem_statsColStep]
    constructor
    · rintro ((h | ⟨rfl, hp, rfl⟩) | ⟨hq, hp, rfl⟩)
      · exact Or.inl h
      · exact Or.inr ⟨List.mem_cons_self _ _, hp, rfl⟩
      · exact Or.inr ⟨List.mem_cons_of_mem _ hq, hp, rfl⟩
    · rintro (h | ⟨hq, hp, rfl⟩)
      · exact Or.inl (Or.inl h)
      · rcases List.mem_cons.mp hq with rfl | hq
        · exact Or.inl (Or.inr ⟨rfl, hp, rfl⟩)
        · exact Or.inr ⟨hq, hp, rfl⟩

lemma mem_buildStats_colCodes (rows : List Row) (cols : List String) (col c : String) :
    c ∈ dictGet (buildStats rows cols).1 col [] ↔
      col ∈ cols ∧
        ∃ row ∈ rows, parseMeanings (dictGet row col "") ≠ [] ∧ c = normCode row := by
  have hgen : ∀ (rs : List Row) (st : StatsState),
      c ∈ dictGet ((rs.foldl (fun st row => cols.foldl (statsColStep row) st) st)).1 col [] ↔
        c ∈ dictGet st.1 col [] ∨
          (col ∈ cols ∧
            ∃ row ∈ rs, parseMeanings (dictGet row col "") ≠ [] ∧ c = normCode row) := by
    intro rs
    induction rs with
    | nil => simp
    | cons row rest ih =>
      intro st
      simp only [List.foldl_cons]
      rw [ih, mem_colsFold]
      constructor
      · rintro ((h | ⟨hc, hp, rfl⟩) | ⟨hc, row2, hrow2, hp, rfl⟩)
        · exact Or.inl h
        · exact Or.inr ⟨hc, row, List.mem_cons_self _ _, hp, rfl⟩
        · exact Or.inr ⟨hc, row2, List.mem_cons_of_mem _ hrow2, hp, rfl⟩
      · rintro (h | ⟨hc, row2, hrow2, hp, rfl⟩)
        · exact Or.inl (Or.inl h)
        · rcases List.mem_cons.mp hrow2 with h2 | hrow2
          · subst h2
            exact Or.inl (Or.inr ⟨hc, hp, rfl⟩)
          · exact Or.inr ⟨hc, row2, hrow2, hp, rfl⟩
  unfold buildStats
  rw [hgen]
  simp [dictGet_init_empty]

lemma interList_length (s t : List String) (hs : s.Nodup) :
    (interList s t).length = (s.toFinset ∩ t.toFinset).card := by
  unfold interList
  rw [← List.toFinset_card_of_nodup (hs.filter _)]
  congr 1
  ext a
  simp [List.mem_filter, Finset.mem_inter]

lemma diffList_length (s t : List String) (hs : s.Nodup) :
    (diffList s t).length = (s.toFinset \ t.toFinset).card := by
  unfold diffList
  rw [← List.toFinset_card_of_nodup (hs.filter _)]
  congr 1
  ext a
  simp [List.mem_filter, Finset.mem_sdiff]

lemma unionList_length (s t : List String) (hs : s.Nodup) (ht : t.Nodup) :
    (unionList s t).length = (s.toFinset ∪ t.toFinset).card := by
  unfold unionList
  have hnd : (s ++ t.filter (fun x => decide (x ∉ s))).Nodup := by
    rw [List.nodup_append]
    refine ⟨hs, ht.filter _, ?_⟩
    intro a ha hb
    have hnb := (List.mem_filter.mp hb).2
    simp only [decide_eq_true_eq] at hnb
    exact hnb ha
  rw [← List.toFinset_card_of_nodup hnd]
  congr 1
  ext a
  simp only [List.toFinset_append, Finset.mem_union, List.mem_toFinset, List.mem_filter,
    decide_eq_true_eq]
  constructor
  · rintro (h | ⟨h, _⟩)
    · exact Or.inl h
    · exact Or.inr h
  · rintro (h | h)
    · exact Or.inl h
    · by_cases hsa : a ∈ s
      · exact Or.inl hsa
      · exact Or.inr ⟨h, hsa⟩

lemma computePairwise_finset (rows : List Row) (cols : List String) :
    computePairwise rows cols =
      (pairCombos cols).map
        (fun p =>
          { a := p.1, b := p.2,
            both := ((dictGet (buildStats rows cols).1 p.1 []).toFinset ∩
              (dictGet (buildStats rows cols).1 p.2 []).toFinset).card,
            onlyA := ((dictGet (buildStats rows cols).1 p.1 []).toFinset \
              (dictGet (buildStats rows cols).1 p.2 []).toFinset).card,
            onlyB := ((dictGet (buildStats rows cols).1 p.2 []).toFinset \
              (dictGet (buildStats rows cols).1 p.1 []).toFinset).card,
            jaccard := (((dictGet (buildStats rows cols).1 p.1 []).toFinset ∩
                (dictGet (buildStats rows cols).1 p.2 []).toFinset).card : ℚ) /
              (((dictGet (buildStats rows cols).1 p.1 []).toFinset ∪
                (dictGet (buildStats rows cols).1 p.2 []).toFinset).card : ℚ) }) := by
  unfold computePairwise
  apply List.map_congr_left
  intro p hp
  have hsa := buildStats_colCodes_nodup rows cols p.1
  have hsb := buildStats_colCodes_nodup rows cols p.2
  dsimp only
  rw [interList_length _ _ hsa, diffList_length _ _ hsa, diffList_length _ _ hsb,
    unionList_length _ _ hsa hsb]
  congr 1
  by_cases h : ((dictGet (buildStats rows cols).1 p.1 []).toFinset ∪
      (dictGet (buildStats rows cols).1 p.2 []).toFinset).card = 0
  · rw [if_neg (by simpa using h), h]
    norm_num
  · rw [if_pos h]

/-! ## `get_codes_to_process` fold lemma -/

lemma codes_fold_eq (results : List (String × String)) (rows : List Row)
    (seen codes : List String) (hinv : ∀ c, c ∈ seen ↔ c ∈ codes) :
    (rows.foldl (codesStep results) (seen, codes)).2 =
      ((rows.map normCode).filter
        (fun c => decide (c ≠ "" ∧ dictMem results c = false))).foldl setInsert codes := by
  induction rows generalizing seen codes with
  | nil => simp
  | cons row rest ih =>
    simp only [List.foldl_cons, List.map_cons, List.filter_cons]
    by_cases h1 : normCode row = "" ∨ dictMem results (normCode row) = true
    · have hstep : codesStep results (seen, codes) row = (seen, codes) := by
        unfold codesStep
        rcases h1 with h1 | h1
        · rw [if_pos (Or.inl h1)]
        · rw [if_pos (Or.inr (Or.inl (by simp [h1])))]
      have hfilt : decide (normCode row ≠ "" ∧ dictMem results (normCode row) = false)
          = false := by
        rcases h1 with h1 | h1 <;> simp [h1]
      rw [hstep, hfilt]
      exact ih seen codes hinv
    · push_neg at h1
      obtain ⟨hne, hmem⟩ := h1
      have hmem0 : dictMem results (normCode row) = false :=
        Bool.eq_false_iff.mpr (by simpa using hmem)
      have hfilt : decide (normCode row ≠ "" ∧ dictMem results (normCode row) = false)
          = true := by simp [hne, hmem0]
      rw [hfilt]
      simp only [if_true, List.foldl_cons]
      by_cases h2 : normCode row ∈ seen
      · have hstep : codesStep results (seen, codes) row = (seen, codes) := by
          unfold codesStep
          rw [if_pos (Or.inr (Or.inr h2))]
        have hset : setInsert codes (normCode row) = codes := by
          unfold setInsert
          rw [if_pos ((hinv _).mp h2)]
        rw [hstep, hset]
        exact ih seen codes hinv
      · have hstep : codesStep results (seen, codes) row =
            (seen ++ [normCode row], codes ++ [normCode row]) := by
          unfold codesStep
          rw [if_neg]
          intro hc
          rcases hc with hc | hc | hc
          · exact hne hc
          · simp [hmem0] at hc
          · exact h2 hc
        have hset : setInsert codes (normCode row) = codes ++ [normCode row] := by
          unfold setInsert
          rw [if_neg (fun hc => h2 ((hinv _).mpr hc))]
        rw [hstep, hset]
        exact ih _ _ (fun c => by simp [hinv c])

/-! ## Claim theorems -/

/-- C1: in `_call_openai` and `_call_gemini`, when the response fails to
parse as JSON, the call waits `2^attempt` (1, 2, 4, 8) and retries the same
model while attempts remain; after the five-attempt ceiling is exhausted it
returns the empty annotation map paired with the current model name — no
exception is raised and no fallback model is attempted. -/
theorem parse_failure_backoff_then_empty (respond : String → Nat → Outcome)
    (model : String) (fallbacks : List String)
    (h : ∀ a, a < 5 → respond model a = .parseErr) :
    callOpenai respond model fallbacks =
      (.returned [] model,
        [.attemptCall model 0, .wait 1, .attemptCall model 1, .wait 2, .attemptCall model 2,
          .wait 4, .attemptCall model 3, .wait 8, .attemptCall model 4]) ∧
    callGemini respond model fallbacks =
      (.returned [] model,
        [.attemptCall model 0, .wait 1, .attemptCall model 1, .wait 2, .attemptCall model 2,
          .wait 4, .attemptCall model 3, .wait 8, .attemptCall model 4]) := by
  constructor
  · have hi := innerLoop_allParseErr openaiThrottle respond model none h
    simp only [callOpenai, modelsToTry]
    rw [outerLoop_done openaiThrottle respond model _ none (.returned [] model) (by rw [hi])]
    rw [hi]
  · have hi := innerLoop_allParseErr geminiThrottle respond model none h
    simp only [callGemini, modelsToTry]
    rw [outerLoop_done geminiThrottle respond model _ none (.returned [] model) (by rw [hi])]
    rw [hi]

/-- Witness for C1 at a concrete oracle whose every response is unparseable. -/
theorem parse_failure_backoff_then_empty_witness :
    callOpenai (fun _ _ => .parseErr) "gpt-5.2" ["gpt-4o"] =
      (.returned [] "gpt-5.2",
        [.attemptCall "gpt-5.2" 0, .wait 1, .attemptCall "gpt-5.2" 1, .wait 2,
          .attemptCall "gpt-5.2" 2, .wait 4, .attemptCall "gpt-5.2" 3, .wait 8,
          .attemptCall "gpt-5.2" 4]) ∧
    callGemini (fun _ _ => .parseErr) "gpt-5.2" ["gpt-4o"] =
      (.returned [] "gpt-5.2",
        [.attemptCall "gpt-5.2" 0, .wait 1, .attemptCall "gpt-5.2" 1, .wait 2,
          .attemptCall "gpt-5.2" 2, .wait 4, .attemptCall "gpt-5.2" 3, .wait 8,
          .attemptCall "gpt-5.2" 4]) :=
  parse_failure_backoff_then_empty (fun _ _ => .parseErr) "gpt-5.2" ["gpt-4o"]
    (fun _ _ => rfl)

/-- C2 counterexample: a run in which only throttling errors occur for the
primary model nevertheless attempts the fallback model — after five
throttled attempts on "gpt-5.2" the loop moves on to "gpt-4o". -/
theorem throttle_only_run_reaches_fallback :
    Event.attemptCall "gpt-4o" 0 ∈
      (callOpenai (fun _ _ => .exn ⟨"429", none⟩) "gpt-5.2" ["gpt-4o"]).2 ∧
    Event.attemptCall "gpt-4o" 0 ∈
      (callGemini (fun _ _ => .exn ⟨"429", none⟩) "gpt-5.2" ["gpt-4o"]).2 := by
  decide

/-- C2 amended: a throttling error causes a wait of `2^attempt` followed by
a retry of the same model while attempts remain; but once the five-attempt
ceiling is consumed by throttling, the call layer proceeds to the next
candidate model, so throttling alone can reach a fallback model. -/
theorem throttle_backoff_then_next_candidate (respond : String → Nat → Outcome)
    (model : String) (fallbacks : List String) (e : Exn)
    (h : ∀ a, a < 5 → respond model a = .exn e) :
    (openaiThrottle e = true →
      callOpenai respond model fallbacks =
        ((outerLoop openaiThrottle respond (fallbacks.filter (fun x => x ≠ model)) (some e)).1,
          [.attemptCall model 0, .wait 1, .attemptCall model 1, .wait 2, .attemptCall model 2,
            .wait 4, .attemptCall model 3, .wait 8, .attemptCall model 4, .wait 16] ++
            (outerLoop openaiThrottle respond (fallbacks.filter (fun x => x ≠ model))
              (some e)).2)) ∧
    (geminiThrottle e = true →
      callGemini respond model fallbacks =
        ((outerLoop geminiThrottle respond (fallbacks.filter (fun x => x ≠ model)) (some e)).1,
          [.attemptCall model 0, .wait 1, .attemptCall model 1, .wait 2, .attemptCall model 2,
            .wait 4, .attemptCall model 3, .wait 8, .attemptCall model 4, .wait 16] ++
            (outerLoop geminiThrottle respond (fallbacks.filter (fun x => x ≠ model))
              (some e)).2)) := by
  constructor
  · intro hθ
    have hi := innerLoop_allThrottle openaiThrottle respond model none e hθ h
    simp only [callOpenai, modelsToTry]
    rw [outerLoop_next openaiThrottle respond model _ none (by rw [hi])]
    rw [hi]
  · intro hθ
    have hi := innerLoop_allThrottle geminiThrottle respond model none e hθ h
    simp only [callGemini, modelsToTry]
    rw [outerLoop_next geminiThrottle respond model _ none (by rw [hi])]
    rw [hi]

/-- Witness for C2's amended theorem at a concrete throttling oracle. -/
theorem throttle_backoff_then_next_candidate_witness :
    callOpenai (fun _ _ => .exn ⟨"429", none⟩) "gpt-5.2" [] =
      (.raised (some ⟨"429", none⟩),
        [.attemptCall "gpt-5.2" 0, .wait 1, .attemptCall "gpt-5.2" 1, .wait 2,
          .attemptCall "gpt-5.2" 2, .wait 4, .attemptCall "gpt-5.2" 3, .wait 8,
          .attemptCall "gpt-5.2" 4, .wait 16]) := by
  have h :=
    (throttle_backoff_then_next_candidate (fun _ _ => .exn ⟨"429", none⟩) "gpt-5.2" []
      ⟨"429", none⟩ (fun _ _ => rfl)).1 (by decide)
  rw [h]
  decide

/-- C3 counterexample: with primary "gpt-5.2" and fallbacks
["gpt-4o", "gpt-4o"], the candidate list keeps the duplicate fallback, so it
is not the duplicate-free list the claim describes. -/
theorem candidate_list_keeps_duplicate_fallbacks :
    modelsToTry "gpt-5.2" ["gpt-4o", "gpt-4o"] = ["gpt-5.2", "gpt-4o", "gpt-4o"] ∧
    ¬ (modelsToTry "gpt-5.2" ["gpt-4o", "gpt-4o"]).Nodup := by
  decide

/-- C3 amended: the candidate list is the primary model followed by the
fallbacks different from it, in order (duplicates inside the fallback list
are kept); the primary occurs exactly once, the tail is an order-preserving
sublist of the fallbacks, and the whole list is duplicate-free whenever the
fallback list itself is. -/
theorem candidate_list_structure (model : String) (fallbacks : List String) :
    modelsToTry model fallbacks = model :: fallbacks.filter (fun x => x ≠ model) ∧
    (modelsToTry model fallbacks).count model = 1 ∧
    (modelsToTry model fallbacks).tail.Sublist fallbacks ∧
    (fallbacks.Nodup → (modelsToTry model fallbacks).Nodup) := by
  have hnotmem : model ∉ fallbacks.filter (fun x => x ≠ model) := by
    intro hmem
    rcases List.mem_filter.mp hmem with ⟨_, hdec⟩
    exact (of_decide_eq_true hdec) rfl
  refine ⟨rfl, ?_, ?_, ?_⟩
  · show (model :: fallbacks.filter (fun x => x ≠ model)).count model = 1
    rw [List.count_cons_self, List.count_eq_zero.mpr hnotmem]
  · exact List.filter_sublist fallbacks
  · intro hnd
    exact List.nodup_cons.mpr ⟨hnotmem, hnd.filter _⟩

/-- Witness for C3's amended theorem at a concrete model list. -/
theorem candidate_list_structure_witness :
    (modelsToTry "gpt-5.2" ["gpt-4o", "gpt-4o-mini"]).Nodup :=
  (candidate_list_structure "gpt-5.2" ["gpt-4o", "gpt-4o-mini"]).2.2.2 (by decide)

/-- C4: on a failure classified as model-unavailable (and not throttling),
the call layer abandons the current model after that single attempt — no
further retries on it, no backoff wait — and proceeds to the remaining
candidate models. -/
theorem model_error_abandons_model_immediately (respond : String → Nat → Outcome)
    (model : String) (fallbacks : List String) (e : Exn)
    (h0 : respond model 0 = .exn e) (hM : isModelError e = true) :
    (openaiThrottle e = false →
      callOpenai respond model fallbacks =
        ((outerLoop openaiThrottle respond (fallbacks.filter (fun x => x ≠ model)) (some e)).1,
          .attemptCall model 0 ::
            (outerLoop openaiThrottle respond (fallbacks.filter (fun x => x ≠ model))
              (some e)).2)) ∧
    (geminiThrottle e = false →
      callGemini respond model fallbacks =
        ((outerLoop geminiThrottle respond (fallbacks.filter (fun x => x ≠ model)) (some e)).1,
          .attemptCall model 0 ::
            (outerLoop geminiThrottle respond (fallbacks.filter (fun x => x ≠ model))
              (some e)).2)) := by
  constructor
  · intro hθ
    have hi := innerLoop_modelError openaiThrottle respond model 0 4 none e h0 hθ hM
    norm_num [maxRetries_eq] at hi
    have hi5 : innerLoop openaiThrottle respond model 0 maxRetries none =
        (.nextModel, [.attemptCall model 0], some e) := by rw [maxRetries_eq]; exact hi
    simp only [callOpenai, modelsToTry]
    rw [outerLoop_next openaiThrottle respond model _ none (by rw [hi5])]
    rw [hi5]
    rfl
  · intro hθ
    have hi := innerLoop_modelError geminiThrottle respond model 0 4 none e h0 hθ hM
    norm_num [maxRetries_eq] at hi
    have hi5 : innerLoop geminiThrottle respond model 0 maxRetries none =
        (.nextModel, [.attemptCall model 0], some e) := by rw [maxRetries_eq]; exact hi
    simp only [callGemini, modelsToTry]
    rw [outerLoop_next geminiThrottle respond model _ none (by rw [hi5])]
    rw [hi5]
    rfl

/-- Witness for C4 at a concrete 404 "model does not exist" error. -/
theorem model_error_abandons_model_immediately_witness :
    callOpenai (fun _ _ => .exn ⟨"the model does not exist", some 404⟩) "gpt-5.2" ["gpt-4o"] =
      (.raised (some ⟨"the model does not exist", some 404⟩),
        [.attemptCall "gpt-5.2" 0, .attemptCall "gpt-4o" 0]) := by
  have h :=
    (model_error_abandons_model_immediately (fun _ _ => .exn ⟨"the model does not exist", some 404⟩)
      "gpt-5.2" ["gpt-4o"] ⟨"the model does not exist", some 404⟩ rfl (by decide)).1 (by decide)
  rw [h]
  decide

/-- C5: `get_codes_to_process` returns exactly the codes that are non-empty
after trimming and uppercasing and not already keys of the results mapping,
de-duplicated keeping the first occurrence (case-insensitively, since codes
are uppercased first) in first-seen order; consequently the returned list is
duplicate-free, a code already in the checkpoint's results never appears,
and any code appears at most once. -/
theorem codes_to_process_spec (rows : List Row) (results : List (String × String)) :
    getCodesToProcess rows results = codesSpec rows results ∧
    (getCodesToProcess rows results).Nodup ∧
    (∀ c, dictMem results c = true → c ∉ getCodesToProcess rows results) ∧
    (∀ c, (getCodesToProcess rows results).count c ≤ 1) := by
  have heq : getCodesToProcess rows results = codesSpec rows results := by
    unfold getCodesToProcess codesSpec firstSeenDedup
    exact codes_fold_eq results rows [] [] (fun c => by simp)
  have hnd : (getCodesToProcess rows results).Nodup := by
    rw [heq]
    exact foldl_setInsert_nodup _ [] (by simp)
  refine ⟨heq, hnd, ?_, ?_⟩
  · intro c hc hmem
    rw [heq] at hmem
    unfold codesSpec firstSeenDedup at hmem
    rcases (mem_foldl_setInsert _ [] c).mp hmem with h0 | h0
    · simp at h0
    · have := of_decide_eq_true (List.mem_filter.mp h0).2
      rw [hc] at this
      exact absurd this.2 (by simp)
  · intro c
    exact List.nodup_iff_count_le_one.mp hnd c

/-- Witness for C5 at concrete rows and checkpointed results. -/
theorem codes_to_process_spec_witness :
    "DDD" ∉ getCodesToProcess
      [[("code", " abc ")], [("code", "ABC")], [("code", "")], [("code", "ddd")]]
      [("DDD", "domain: x")] :=
  (codes_to_process_spec
    [[("code", " abc ")], [("code", "ABC")], [("code", "")], [("code", "ddd")]]
    [("DDD", "domain: x")]).2.2.1 "DDD" (by decide)

/-- C7: `save_checkpoint` stores the given checkpoint under the given key,
leaves every other key's entry unchanged, and succeeds (creating the store)
when the checkpoint file does not yet exist. -/
theorem save_checkpoint_frame (store : Option (List (String × Checkpoint)))
    (provider : String) (cp : Checkpoint) :
    dictFind (saveCheckpoint store provider cp) provider = some cp ∧
    (∀ k, k ≠ provider →
      dictFind (saveCheckpoint store provider cp) k = dictFind (store.getD []) k) ∧
    saveCheckpoint none provider cp = [(provider, cp)] := by
  refine ⟨?_, ?_, rfl⟩
  · cases store with
    | none => exact dictFind_insert_self [] provider cp
    | some d => exact dictFind_insert_self d provider cp
  · intro k hk
    cases store with
    | none => exact dictFind_insert_ne [] provider k cp hk
    | some d => exact dictFind_insert_ne d provider k cp hk

/-- C6: `_write_output` keeps, for every known annotation column other than
the current target column and every row whose code appears in the
pre-existing output, exactly the value that column had in the prior output;
in particular a gemini run preserves `meanings_openai`. -/
theorem write_output_preserves_other_columns (reparse : String → String) (rows : List Row)
    (base : List String) (results : List (String × String)) (column : String)
    (priorRows : List Row) (col : String) (row : Row) (prior : Row)
    (hcol : col ∈ knownColsOf column (loadExisting priorRows)) (hne : col ≠ column)
    (hprior : dictFind (loadExisting priorRows) (pyStrip (dictGet row "code" "")) = some prior)
    (hpc : (dictFind prior col).isSome = true) :
    (writeOutput reparse rows base results column priorRows).2 =
      rows.map (writeRow reparse base results column priorRows) ∧
    dictFind (writeRow reparse base results column priorRows row) col =
      some (dictGet prior col "") := by
  refine ⟨rfl, ?_⟩
  unfold writeRow
  rw [dictFind_projection _ _ col
    (mem_fieldnamesOf base _ col (knownColsOf_nodup column _) hcol)]
  congr 1
  simp only [mergeRow, hprior]
  rw [dictGet_eq, dictFind_insert_ne _ column col _ hne,
    mergeFold_find prior column _ row col (knownColsOf_nodup column _) hcol hne hpc]
  rfl

/-- Witness for C6: a gemini-column run over a prior output carrying
`meanings_openai` keeps that column's value for the matching code. -/
theorem write_output_preserves_other_columns_witness :
    dictFind
      (writeRow id ["code"] [] "meanings_gemini"
        [[("code", "AAA"), ("meanings_openai", "app")]] [("code", "AAA")])
      "meanings_openai" = some "app" := by
  have h :=
    (write_output_preserves_other_columns id [[("code", "AAA")]] ["code"] [] "meanings_gemini"
      [[("code", "AAA"), ("meanings_openai", "app")]] "meanings_openai" [("code", "AAA")]
      [("code", "AAA"), ("meanings_openai", "app")]
      (by decide) (by decide) (by decide) (by decide)).2
  rw [h]
  rfl

/-- C10 counterexample: with the same input and prior state, a run targeting
`meanings_openai_x` (provider openai, prompt x) and a run targeting
`meanings_gemini_x` (provider gemini, prompt x) place the enrichment column
`meanings_openai` at different header positions, so the position of an
enrichment column does depend on which provider the current run targets. -/
theorem header_position_depends_on_target :
    (writeOutput id [] ["code"] [] "meanings_openai_x" []).1 =
      ["code", "meanings_gemini", "meanings_openai", "meanings_openai_x"] ∧
    (writeOutput id [] ["code"] [] "meanings_gemini_x" []).1 =
      ["code", "meanings_gemini", "meanings_gemini_x", "meanings_openai"] ∧
    (writeOutput id [] ["code"] [] "meanings_openai_x" []).1.indexOf "meanings_openai" ≠
      (writeOutput id [] ["code"] [] "meanings_gemini_x" []).1.indexOf "meanings_openai" := by
  decide

/-- C10 amended: the header is the base columns in their original order
followed by the known enrichment columns not already present, in
lexicographically sorted order, and (when the target column is a
`meanings_*` column) every appended column is a `meanings_*` column.  The
relative sorted order is target-independent, but absolute positions shift
when the target column itself differs. -/
theorem header_base_then_sorted_meanings (reparse : String → String) (rows : List Row)
    (base : List String) (results : List (String × String)) (column : String)
    (priorRows : List Row) :
    (writeOutput reparse rows base results column priorRows).1 =
      base ++ (sortStrings (knownColsOf column (loadExisting priorRows))).filter
        (fun c => c ∉ base) ∧
    List.Pairwise (fun a b => strLe a b = true)
      ((sortStrings (knownColsOf column (loadExisting priorRows))).filter
        (fun c => c ∉ base)) ∧
    (pyStartsWith column "meanings_" = true →
      ∀ c ∈ (sortStrings (knownColsOf column (loadExisting priorRows))).filter
        (fun c => c ∉ base), pyStartsWith c "meanings_" = true) := by
  refine ⟨?_, ?_, ?_⟩
  · show fieldnamesOf base (knownColsOf column (loadExisting priorRows)) = _
    unfold fieldnamesOf
    exact foldl_append_absent _ base
      ((perm_sortStrings _).nodup_iff.mpr (knownColsOf_nodup column _))
  · exact (sorted_sortStrings _).filter _
  · intro hcolumn c hc
    have hmem : c ∈ knownColsOf column (loadExisting priorRows) :=
      (perm_sortStrings _).mem_iff.mp (List.mem_filter.mp hc).1
    rcases mem_knownColsOf column _ c hmem with rfl | hc2 | hc2
    · exact hcolumn
    · have : c = "meanings_openai" ∨ c = "meanings_gemini" := by
        simpa [providerColumns] using hc2
      rcases this with rfl | rfl <;> decide
    · exact hc2

/-- Witness for C10's amended theorem at a concrete run. -/
theorem header_base_then_sorted_meanings_witness :
    ∀ c ∈ (sortStrings (knownColsOf "meanings_gemini" (loadExisting []))).filter
      (fun c => c ∉ ["code"]), pyStartsWith c "meanings_" = true :=
  (header_base_then_sorted_meanings id [] ["code"] [] "meanings_gemini" []).2.2 (by decide)

/-- C8: for coverage sets {AAA,BBB} and {BBB,CCC} the pairwise entry is
both = 1, only_a = 1, only_b = 1, Jaccard = 1/3; in general every pairwise
entry carries the intersection cardinality, the two difference
cardinalities, and |A∩B|/|A∪B| over the code-coverage sets, where a
column's coverage set consists exactly of the normalised codes of rows with
a nonempty parsed meaning in that column. -/
theorem pairwise_overlap_spec :
    (computeStats overlapExampleRows ["meanings_a", "meanings_b"]).pairwise =
      [{ a := "meanings_a", b := "meanings_b", both := 1, onlyA := 1, onlyB := 1,
         jaccard := 1/3 }] ∧
    (∀ rows cols, (computeStats rows cols).pairwise =
      (pairCombos cols).map
        (fun p =>
          { a := p.1, b := p.2,
            both := ((dictGet (buildStats rows cols).1 p.1 []).toFinset ∩
              (dictGet (buildStats rows cols).1 p.2 []).toFinset).card,
            onlyA := ((dictGet (buildStats rows cols).1 p.1 []).toFinset \
              (dictGet (buildStats rows cols).1 p.2 []).toFinset).card,
            onlyB := ((dictGet (buildStats rows cols).1 p.2 []).toFinset \
              (dictGet (buildStats rows cols).1 p.1 []).toFinset).card,
            jaccard := (((dictGet (buildStats rows cols).1 p.1 []).toFinset ∩
                (dictGet (buildStats rows cols).1 p.2 []).toFinset).card : ℚ) /
              (((dictGet (buildStats rows cols).1 p.1 []).toFinset ∪
                (dictGet (buildStats rows cols).1 p.2 []).toFinset).card : ℚ) })) ∧
    (∀ rows cols col c, c ∈ dictGet (buildStats rows cols).1 col [] ↔
      col ∈ cols ∧
        ∃ row ∈ rows, parseMeanings (dictGet row col "") ≠ [] ∧ c = normCode row) := by
  refine ⟨?_, ?_, ?_⟩
  · have h : (computeStats overlapExampleRows ["meanings_a", "meanings_b"]).pairwise =
        [{ a := "meanings_a", b := "meanings_b", both := 1, onlyA := 1, onlyB := 1,
           jaccard := ((1 : ℕ) : ℚ) / ((3 : ℕ) : ℚ) }] := rfl
    rw [h]
    norm_num
  · exact fun rows cols => computePairwise_finset rows cols
  · exact fun rows cols col c => mem_buildStats_colCodes rows cols col c

/-- C9 counterexample: the claim describes the normalization as dropping a
*trailing* parenthetical, but on "x (y) z" the code's normalization cuts at
the first opening parenthesis and yields "x", while dropping a trailing
parenthetical would leave "x (y) z" (the string has no trailing
parenthetical). -/
theorem normalize_not_only_trailing_paren :
    normalizeMeaning "x (y) z" = "x" ∧
    trailingParenNormalize "x (y) z" = "x (y) z" ∧
    normalizeMeaning "x (y) z" ≠ trailingParenNormalize "x (y) z" := by
  decide

/-- C9 amended: the normalization lowercases and trims, then drops
everything from the first opening parenthesis onward (re-trimming); a string
without an opening parenthesis is returned lowercased and trimmed.  In
particular "Application (software)" and "application" both normalize to
"application", and a code carrying the first in one column and the second in
another is counted as agreeing for that column pair. -/
theorem normalize_cuts_at_first_paren :
    (∀ m, pyContains (pyStrip (pyLower m)) "(" = true →
      normalizeMeaning m =
        pyStrip (String.mk
          ((pyStrip (pyLower m)).toList.takeWhile (fun c => decide (c ≠ '('))))) ∧
    (∀ m, pyContains (pyStrip (pyLower m)) "(" = false →
      normalizeMeaning m = pyStrip (pyLower m)) ∧
    normalizeMeaning "Application (software)" = "application" ∧
    normalizeMeaning "application" = "application" ∧
    normalizeMeaning "x (y) z" = "x" ∧
    (computeStats agreementExampleRows ["meanings_a", "meanings_b"]).agreement =
      [{ a := "meanings_a", b := "meanings_b", sharedCodes := 1, agreeCount := 1,
         agreePct := 100 }] := by
  refine ⟨?_, ?_, by decide, by decide, by decide, ?_⟩
  · intro m h
    simp only [normalizeMeaning]
    rw [if_pos h, take_idxOfChar]
  · intro m h
    simp only [normalizeMeaning]
    rw [if_neg (by simp [h])]
  · have h : (computeStats agreementExampleRows ["meanings_a", "meanings_b"]).agreement =
        [{ a := "meanings_a", b := "meanings_b", sharedCodes := 1, agreeCount := 1,
           agreePct := ((1 : ℕ) : ℚ) / ((1 : ℕ) : ℚ) * 100 }] := rfl
    rw [h]
    norm_num

/-- Witness for C9's amended theorem at the claim's example string. -/
theorem normalize_cuts_at_first_paren_witness :
    normalizeMeaning "Application (software)" =
      pyStrip (String.mk
        ((pyStrip (pyLower "Application (software)")).toList.takeWhile
          (fun c => decide (c ≠ '(')))) :=
  normalize_cuts_at_first_paren.1 "Application (software)" (by decide)

/-- Witness for C7 at a concrete two-provider checkpoint file. -/
theorem save_checkpoint_frame_witness :
    dictFind
      (saveCheckpoint (some [("gemini", ⟨[("AAA", "ant")], some "gemini-2.5-pro"⟩)])
        "openai" ⟨[("BBB", "b")], some "gpt-4o"⟩) "gemini" =
      some ⟨[("AAA", "ant")], some "gemini-2.5-pro"⟩ := by
  have h :=
    (save_checkpoint_frame (some [("gemini", ⟨[("AAA", "ant")], some "gemini-2.5-pro"⟩)])
      "openai" ⟨[("BBB", "b")], some "gpt-4o"⟩).2.1 "gemini" (by decide)
  rw [h]
  rfl

end Airport
